import Mathlib

/-!
Verification development for the influence-network extraction pipeline
(`get_wiki_data.py`, `models.py`, `clean_csvs.py`, `ETL/get_wiki_data.py`,
`ETL/clean_csvs_for_neo4j.py`).

The Python sources are shallowly embedded: dictionaries become
insertion-ordered association lists (`List (String × _)`), JSON values
become structures with `Option` fields for possibly-absent keys, CSV
files become lists of rows (`List (List String)`; byte-level CSV
quoting is out of scope per the specification), and the network is an
oracle function from attempt/offset numbers to outcomes.
-/

set_option autoImplicit false

namespace InfluenceNet

/-! ## Raw SPARQL JSON values and the pydantic models (`models.py`) -/

/-- One raw JSON object standing for a SPARQL value, before validation.
Each field of the Python dict may be absent (`none`).  `models.py`
declares `type` and `value` as required `str` fields and `xml:lang` /
`datatype` as optional. -/
structure RawValue where
  vtype : Option String
  value : Option String
  xmlLang : Option String := none
  datatype : Option String := none
  deriving DecidableEq, Repr

/-- Validated `SPARQLValue` (`models.py` lines 5-19): `type` and `value`
are present strings, the other two stay optional. -/
structure SPARQLValue where
  vtype : String
  value : String
  xmlLang : Option String := none
  datatype : Option String := none
  deriving DecidableEq, Repr

/-- Pydantic parse of a raw dict into `SPARQLValue`: fails exactly when
the required `type` or `value` key is missing. -/
def parseSPARQLValue (rv : RawValue) : Option SPARQLValue :=
  match rv.vtype, rv.value with
  | some t, some v => some ⟨t, v, rv.xmlLang, rv.datatype⟩
  | _, _ => none

/-- One raw result row for the event-causality query; each of the five
bound variables may be absent from the JSON object. -/
structure RawItem where
  event1 : Option RawValue
  event1Label : Option RawValue
  event2 : Option RawValue
  event2Label : Option RawValue
  causeType : Option RawValue
  deriving DecidableEq, Repr

/-- Validated `SPARQLResult` (`models.py` lines 22-49). -/
structure SPARQLResult where
  event1 : SPARQLValue
  event1Label : SPARQLValue
  event2 : SPARQLValue
  event2Label : SPARQLValue
  causeType : SPARQLValue
  deriving DecidableEq, Repr

/-- Embedding of `SPARQLResult(**item)`: all five fields must be present
and parse as `SPARQLValue`; the field validators require
`event1.type = "uri"`, `event2.type = "uri"` and
`causeType.type = "literal"` (no `type` constraint on the two labels). -/
def validateSPARQLResult (item : RawItem) : Option SPARQLResult :=
  match item.event1.bind parseSPARQLValue, item.event1Label.bind parseSPARQLValue,
        item.event2.bind parseSPARQLValue, item.event2Label.bind parseSPARQLValue,
        item.causeType.bind parseSPARQLValue with
  | some e1, some e1l, some e2, some e2l, some ct =>
    if e1.vtype = "uri" ∧ e2.vtype = "uri" ∧ ct.vtype = "literal" then
      some ⟨e1, e1l, e2, e2l, ct⟩
    else none
  | _, _, _, _, _ => none

/-! ## `get_id_from_uri` (`get_wiki_data.py` lines 54-58, also
`ETL/get_wiki_data.py` lines 349-351): `uri.split("/")[-1]`. -/

/-- Embedding of Python `str.split("/")` on a character list: splits at
every slash, keeping empty tokens, so the result is never empty. -/
def splitSlash : List Char → List (List Char)
  | [] => [[]]
  | c :: rest =>
    if c = '/' then [] :: splitSlash rest
    else
      match splitSlash rest with
      | [] => [[c]]
      | t :: ts => (c :: t) :: ts

/-- Embedding of `get_id_from_uri`: `uri.split("/")[-1]`, the last
slash-delimited token (`[-1]` on the never-empty split result). -/
def get_id_from_uri (uri : String) : String :=
  ⟨(splitSlash uri.data).getLastD []⟩

/-! ## The node table: a Python dict as an insertion-ordered
association list -/

/-- Node table of the causality pipeline: Q-ID to label, in insertion
order (a Python `Dict[str, str]`). -/
abbrev NodeTable := List (String × String)

/-- Python `k in d` / `d[k]` lookup on an association list. -/
def dictGet {α : Type} (m : List (String × α)) (k : String) : Option α :=
  (m.find? (fun p => p.1 = k)).map (fun p => p.2)

/-- Embedding of the guarded insert `if k not in d: d[k] = v` used by
both pipelines (`get_wiki_data.py` lines 87-91,
`ETL/get_wiki_data.py` lines 374-393): a fresh key is appended, an
existing key leaves the dict unchanged. -/
def insertIfAbsent {α : Type} (m : List (String × α)) (k : String) (v : α) :
    List (String × α) :=
  if m.any (fun p => p.1 = k) then m else m ++ [(k, v)]

/-- One relationship row (`{"cause": ..., "effect": ..., "type": ...}`). -/
structure Rel where
  cause : String
  effect : String
  rtype : String
  deriving DecidableEq, Repr

/-- Embedding of `process_data` (`get_wiki_data.py` lines 60-107): each
record is validated in isolation; a record failing validation is skipped
(`continue`) without touching `nodes` or `relationships`; a valid record
upserts both endpoint nodes (first label wins) and appends one
relationship. -/
def process_data (batch : List RawItem) (nodes : NodeTable) (rels : List Rel) :
    NodeTable × List Rel :=
  match batch with
  | [] => (nodes, rels)
  | item :: rest =>
    match validateSPARQLResult item with
    | none => process_data rest nodes rels
    | some r =>
      let event1_id := get_id_from_uri r.event1.value
      let event2_id := get_id_from_uri r.event2.value
      let nodes1 := insertIfAbsent nodes event1_id r.event1Label.value
      let nodes2 := insertIfAbsent nodes1 event2_id r.event2Label.value
      process_data rest nodes2 (rels ++ [⟨event1_id, event2_id, r.causeType.value⟩])

/-! ## Checkpoint files (`get_wiki_data.py` lines 109-177)

A CSV file is modelled as its list of rows, each row a list of string
fields; the spec places byte-level CSV quoting out of scope. -/

/-- Rows of `checkpoint_nodes_<k>.csv` written by `write_checkpoint_csv`
(lines 111-116): a header then one `[id, label, "Entity"]` row per node
in dict insertion order. -/
def write_checkpoint_nodes (nodes : NodeTable) : List (List String) :=
  ["id:ID", "label", ":LABEL"] :: nodes.map (fun p => [p.1, p.2, "Entity"])

/-- Rows of `checkpoint_relationships_<k>.csv` written by
`write_checkpoint_csv` (lines 118-123). -/
def write_checkpoint_rels (rels : List Rel) : List (List String) :=
  [":START_ID", ":END_ID", "type", ":TYPE"] ::
    rels.map (fun r => [r.cause, r.effect, r.rtype, "CAUSES"])

/-- Field access `row[col]` on a `csv.DictReader` row: the row dict
pairs header names with the row's fields; `none` models the `KeyError`
on a missing column (and the `None` rest-value of a truncated row,
which the loader's string-typed table cannot hold either). -/
def dictRowGet (header row : List String) (col : String) : Option String :=
  ((header.zip row).find? (fun p => p.1 = col)).map (fun p => p.2)

/-- Python `d[k] = v` on an association list: an existing key is
overwritten in place, a fresh key is appended. -/
def dictAssign (m : NodeTable) (k v : String) : NodeTable :=
  if m.any (fun p => p.1 = k) then
    m.map (fun p => if p.1 = k then (k, v) else p)
  else m ++ [(k, v)]

/-- Node half of `load_checkpoint` (lines 156-162): a `DictReader` over
the rows (first row is the header; an empty file yields no rows), doing
`nodes[row['id:ID']] = row['label']` for each body row.  `none` when a
row lacks one of the two columns. -/
def load_checkpoint_nodes (rows : List (List String)) : Option NodeTable :=
  match rows with
  | [] => some []
  | header :: body =>
    body.foldlM
      (fun acc row =>
        match dictRowGet header row "id:ID", dictRowGet header row "label" with
        | some i, some l => some (dictAssign acc i l)
        | _, _ => none)
      []

/-- Relationship half of `load_checkpoint` (lines 164-174): appends
`{cause. effect, type}` from the three named columns of each body row. -/
def load_checkpoint_rels (rows : List (List String)) : Option (List Rel) :=
  match rows with
  | [] => some []
  | header :: body =>
    body.foldlM
      (fun acc row =>
        match dictRowGet header row ":START_ID", dictRowGet header row ":END_ID",
              dictRowGet header row "type" with
        | some c, some e, some t => some (acc ++ [Rel.mk c e t])
        | _, _, _ => none)
      []

/-! ## Generic entity pipeline (`ETL/get_wiki_data.py`) -/

/-- One raw result row of the generic entity query: a JSON object
mapping bound-variable names to raw SPARQL values. -/
abbrev EntityItem := List (String × RawValue)

/-- Configuration of one entity category (an `ENTITY_TYPES` entry): the
`:LABEL` tag and the property list; the `Bool` is the `label` flag
selecting the `<name>Label` bound variable. -/
structure EntityConfig where
  label : String
  props : List (String × Bool)
  deriving DecidableEq, Repr

/-- The node dict built by `process_entity_data` for one entity. -/
structure EntityNode where
  id : String
  name : String
  props : List (String × Option String)
  tag : String
  deriving DecidableEq, Repr

/-- Embedding of `get_optional_field` (`ETL/get_wiki_data.py` lines
354-361): absent field, or a falsy (empty-dict) value, returns `None`;
a present truthy value is parsed as `SPARQLValue`, with any parse
failure caught and mapped to `None`. -/
def get_optional_field (item : EntityItem) (f : String) : Option String :=
  match dictGet item f with
  | none => none
  | some rv =>
    if rv = ⟨none, none, none, none⟩ then none
    else (parseSPARQLValue rv).map (fun v => v.value)

/-- Loop body accumulator of `process_entity_data` (lines 364-398):
a record whose required `entity` / `entityLabel` fields are missing or
unparseable is skipped by the bare `except`; a fresh entity id inserts
a node whose optional properties come from `get_optional_field`;
an already-seen id leaves the table untouched. -/
def process_entity_data_go (cfg : EntityConfig) :
    List EntityItem → List (String × EntityNode) → List (String × EntityNode)
  | [], nodes => nodes
  | item :: rest, nodes =>
    match (dictGet item "entity").bind parseSPARQLValue,
          (dictGet item "entityLabel").bind parseSPARQLValue with
    | some entity, some entityLabel =>
      let entity_id := get_id_from_uri entity.value
      let node : EntityNode :=
        ⟨entity_id, entityLabel.value,
         cfg.props.map (fun pc =>
           (pc.1, get_optional_field item (if pc.2 then pc.1 ++ "Label" else pc.1))),
         cfg.label⟩
      process_entity_data_go cfg rest (insertIfAbsent nodes entity_id node)
    | _, _ => process_entity_data_go cfg rest nodes

/-- Embedding of `process_entity_data`: the rows of the returned
DataFrame, in node insertion order (`list(nodes.values())`). -/
def process_entity_data (raw : List EntityItem) (cfg : EntityConfig) :
    List EntityNode :=
  (process_entity_data_go cfg raw []).map (fun p => p.2)

/-! ## The event-causality fetcher and pagination loop
(`get_wiki_data.py` lines 18-52 and 193-254) -/

/-- Outcome of one network attempt inside `fetch_batch`: the decoded
binding list, or an exception. -/
inductive AttemptOutcome where
  | ok (batch : List RawItem)
  | fail
  deriving DecidableEq, Repr

/-- What `fetch_batch` hands back to `main`: a batch, a raised
exception (all retries failed), or Python's implicit `None` when
`range(max_retries)` is empty. -/
inductive FetchOut where
  | got (batch : List RawItem)
  | raised
  | returnedNone
  deriving DecidableEq, Repr

/-- Retry loop of `fetch_batch` (lines 36-52), driven by an oracle
giving each attempt's outcome.  `rem` is the number of loop iterations
left (`max_retries - attempt`); the result carries the number of
attempts actually made.  On a failure with `attempt < max_retries - 1`
the loop backs off and retries; on the last attempt it re-raises. -/
def fetch_batch_go (oracle : Nat → AttemptOutcome) :
    Nat → Nat → FetchOut × Nat
  | _, 0 => (.returnedNone, 0)
  | attempt, rem + 1 =>
    match oracle attempt with
    | .ok b => (.got b, 1)
    | .fail =>
      if rem = 0 then (.raised, 1)
      else
        let r := fetch_batch_go oracle (attempt + 1) rem
        (r.1, r.2 + 1)

/-- Embedding of `fetch_batch` at one offset: run the retry loop from
attempt 0 with the full `max_retries` budget. -/
def fetch_batch (oracle : Nat → AttemptOutcome) (max_retries : Nat) :
    FetchOut × Nat :=
  fetch_batch_go oracle 0 max_retries

/-- How a run of `main` ended (`fuelOut` is the artifact of bounding
the unbounded `while True`). -/
inductive RunEnd where
  | done
  | fatalStopped
  | fuelOut
  deriving DecidableEq, Repr

/-- Observable output of a run of `main`: how it ended, every
checkpoint written (state plus tag `len(relationships)`), the final
CSV write, and the offsets fetched, in order. -/
structure RunOut where
  result : RunEnd
  checkpoints : List (NodeTable × List Rel × Nat)
  finalWrite : Option (NodeTable × List Rel)
  fetched : List Nat
  deriving DecidableEq, Repr

/-- Pipeline configuration of `main` (lines 205-208). -/
structure MainCfg where
  batchSize : Nat
  checkpointFreq : Nat
  maxResults : Option Nat
  deriving DecidableEq, Repr

/-- Embedding of the pagination loop of `main` (lines 212-251), with
the per-offset fetch result abstracted into `env`.  A raised fetch
error writes an emergency checkpoint and breaks; an empty (or `None`)
batch breaks; otherwise the batch is merged, a periodic checkpoint is
written when `len(relationships)` is a positive multiple of the
frequency, the optional `max_results` bound (`0` is falsy) is checked,
and the offset advances by `batch_size`.  `write_final_csv` runs after
the loop on every non-fuel exit. -/
def main_loop (cfg : MainCfg) (env : Nat → FetchOut) :
    Nat → NodeTable → List Rel → Nat → RunOut
  | 0, _, _, _ => ⟨.fuelOut, [], none, []⟩
  | fuel + 1, nodes, rels, offset =>
    match env offset with
    | .raised => ⟨.fatalStopped, [(nodes, rels, rels.length)], some (nodes, rels), [offset]⟩
    | .returnedNone => ⟨.done, [], some (nodes, rels), [offset]⟩
    | .got [] => ⟨.done, [], some (nodes, rels), [offset]⟩
    | .got (item :: batchRest) =>
      let st := process_data (item :: batchRest) nodes rels
      let cps :=
        if st.2.length % cfg.checkpointFreq = 0 ∧ 0 < st.2.length then
          [(st.1, st.2, st.2.length)]
        else []
      let hitMax : Bool :=
        match cfg.maxResults with
        | none => false
        | some m => decide (m ≠ 0) && decide (m ≤ st.2.length)
      if hitMax then ⟨.done, cps, some (st.1, st.2), [offset]⟩
      else
        let rest := main_loop cfg env fuel st.1 st.2 (offset + cfg.batchSize)
        ⟨rest.result, cps ++ rest.checkpoints, rest.finalWrite,
         offset :: rest.fetched⟩

/-- Folding `process_data` over a sequence of batches, as the
pagination loop does between checkpoints. -/
def merge_batches (bs : List (List RawItem)) (nodes : NodeTable)
    (rels : List Rel) : NodeTable × List Rel :=
  bs.foldl (fun st b => process_data b st.1 st.2) (nodes, rels)

/-! ## The generic fetcher `fetch_batch_data`
(`ETL/get_wiki_data.py` lines 272-346) -/

/-- Outcome of one network attempt of the generic fetcher: a decoded
result list, an exception whose text contains "429", or any other
exception. -/
inductive EtlOutcome where
  | success (results : List EntityItem)
  | rateLimited
  | failOther
  deriving DecidableEq, Repr

/-- How one pass over `for attempt in range(max_retries)` ended. -/
inductive RoundRes where
  | batch (results : List EntityItem)
  | gaveUp
  | fellThrough
  deriving DecidableEq, Repr

/-- Result of one retry round: its outcome, the index of the next
network call, and the sleeps performed (seconds), in order. -/
structure RoundOut where
  res : RoundRes
  nextCall : Nat
  sleeps : List Nat
  deriving DecidableEq, Repr

/-- Embedding of the `for attempt in range(max_retries)` body of
`fetch_batch_data` (lines 297-346), over an oracle indexed by network
call.  A success sleeps 5s and breaks with the batch; a 429 failure
sleeps 60s and `continue`s — advancing `attempt`; any other failure
backs off `10 * 2^attempt` and retries, except on the final attempt
where the function returns the partial accumulation (`gaveUp`).  If
the range is exhausted without a break or return (only possible when
the final attempt hit a 429) the round falls through to the enclosing
`while True`. -/
def fetch_round (oracle : Nat → EtlOutcome) :
    Nat → Nat → Nat → RoundOut
  | call, _, 0 => ⟨.fellThrough, call, []⟩
  | call, attempt, rem + 1 =>
    match oracle call with
    | .success rs => ⟨.batch rs, call + 1, [5]⟩
    | .rateLimited =>
      let r := fetch_round oracle (call + 1) (attempt + 1) rem
      ⟨r.res, r.nextCall, 60 :: r.sleeps⟩
    | .failOther =>
      if rem = 0 then ⟨.gaveUp, call + 1, []⟩
      else
        let r := fetch_round oracle (call + 1) (attempt + 1) rem
        ⟨r.res, r.nextCall, (10 * 2 ^ attempt) :: r.sleeps⟩

/-- Embedding of the enclosing `while True` of `fetch_batch_data`:
each iteration runs one retry round; a non-empty batch is accumulated
(and the offset advances), an empty batch or a give-up returns the
accumulation so far, and a fallen-through round repeats at the same
offset with a fresh `attempt` budget.  `none` means the fuel ran out
with the loop still running. -/
def fetch_batch_data_loop (oracle : Nat → EtlOutcome) (max_retries : Nat) :
    Nat → Nat → List EntityItem → Option (List EntityItem)
  | 0, _, _ => none
  | fuel + 1, call, acc =>
    let r := fetch_round oracle call 0 max_retries
    match r.res with
    | .batch [] => some acc
    | .batch rs => fetch_batch_data_loop oracle max_retries fuel r.nextCall (acc ++ rs)
    | .gaveUp => some acc
    | .fellThrough => fetch_batch_data_loop oracle max_retries fuel r.nextCall acc

/-! ## Response repair (`ETL/get_wiki_data.py` lines 305-320) -/

/-- Control characters targeted by `re.sub(r'[\x00-\x1f\x7f-\x9f]+', ' ', _)`. -/
def isCtrlChar (c : Char) : Bool :=
  c.toNat ≤ 0x1f || (0x7f ≤ c.toNat && c.toNat ≤ 0x9f)

/-- Worker for the control-character substitution: a maximal run of
control characters becomes a single space (`prevCtrl` tracks whether
the previous character was part of a run). -/
def stripCtrlAux : Bool → List Char → List Char
  | _, [] => []
  | prevCtrl, c :: rest =>
    if isCtrlChar c then
      if prevCtrl then stripCtrlAux true rest
      else ' ' :: stripCtrlAux true rest
    else c :: stripCtrlAux false rest

/-- Embedding of `re.sub(r'[\x00-\x1f\x7f-\x9f]+', ' ', raw_json)`. -/
def stripCtrlRuns (l : List Char) : List Char :=
  stripCtrlAux false l

/-- Hex digit class `[0-9a-fA-F]` of the backslash regex. -/
def isHexDigitChar (c : Char) : Bool :=
  c.isDigit || ('a' ≤ c && c ≤ 'f') || ('A' ≤ c && c ≤ 'F')

/-- The regex lookahead `(?!["\\/bfnrt]|u[0-9a-fA-F]{4})`, inverted:
does the remainder begin a recognized JSON escape sequence? -/
def isEscStart : List Char → Bool
  | [] => false
  | c :: rest =>
    c = '"' || c = '\\' || c = '/' || c = 'b' || c = 'f' || c = 'n' ||
      c = 'r' || c = 't' ||
    (c = 'u' && (rest.take 4).length = 4 && (rest.take 4).all isHexDigitChar)

/-- Embedding of
`re.sub(r'\\(?!["\\/bfnrt]|u[0-9a-fA-F]{4})', '', _)`: a backslash not
starting a recognized escape is removed; a kept backslash leaves the
scan to resume at the following character. -/
def stripStrayBackslash : List Char → List Char
  | [] => []
  | c :: rest =>
    if c = '\\' then
      if isEscStart rest then '\\' :: stripStrayBackslash rest
      else stripStrayBackslash rest
    else c :: stripStrayBackslash rest

/-- Python `str.replace` of one character by another. -/
def replaceChar (a b : Char) (l : List Char) : List Char :=
  l.map (fun c => if c = a then b else c)

/-- The `.replace('\n', ' ').replace('\r', ' ')` of the last repair pass. -/
def collapseNewlines (l : List Char) : List Char :=
  replaceChar '\r' ' ' (replaceChar '\n' ' ' l)

/-- The parse attempts the repair code actually makes after the primary
decode fails, as pairs of (parser input, strict flag): one
`json.loads(cleaned_json, strict=False)` on the control-char- and
backslash-stripped text, then one on the same text with newlines
collapsed, again with `strict=False` (lines 312-320). -/
def repair_attempts (raw : List Char) : List (List Char × Bool) :=
  let cleaned := stripStrayBackslash (stripCtrlRuns raw)
  [(cleaned, false), (collapseNewlines cleaned, false)]

/-- Modelled from the spec: the repair-pass structure the specification
describes (claim C5) — pass (a) strips only control characters and
retries a strict parse, pass (b) additionally strips stray backslashes
and retries strictly, pass (c) additionally collapses newlines and
parses leniently. -/
def spec_repair_attempts (raw : List Char) : List (List Char × Bool) :=
  [(stripCtrlRuns raw, true),
   (stripStrayBackslash (stripCtrlRuns raw), true),
   (collapseNewlines (stripStrayBackslash (stripCtrlRuns raw)), false)]

/-! ## CSV cleaning (`clean_csvs.py`) -/

/-- The Q-ID format test of `clean_nodes` line 35:
`node_id.startswith('Q') and node_id[1:].isdigit()`, over the id's
characters: first character `Q`, and at least one further character,
all digits (`isdigit` is false on the empty slice; ASCII digits model
Python's decimal-digit class). -/
def isValidQid (s : String) : Bool :=
  match s.data with
  | [] => false
  | c :: rest => c = 'Q' && !rest.isEmpty && rest.all Char.isDigit

/-- Embedding of the row loop of `clean_nodes` (lines 30-44) over the
body rows of `nodes.csv` as (id, label) pairs: rows failing the Q-ID
test are dropped, rows whose label equals the id are dropped, the rest
are written out. -/
def clean_nodes : List (String × String) → List (String × String)
  | [] => []
  | (i, l) :: rest =>
    if isValidQid i then
      if l ≠ i then (i, l) :: clean_nodes rest
      else clean_nodes rest
    else clean_nodes rest

/-- Embedding of `clean_relationships` (lines 72-82) over the body rows
of `relationships.csv`: a row survives exactly when both endpoint ids
are in `valid_nodes` (the ids kept by `clean_nodes`). -/
def clean_relationships (valid_nodes : List String)
    (rows : List (String × String × String)) : List (String × String × String) :=
  rows.filter (fun r => valid_nodes.contains r.1 && valid_nodes.contains r.2.1)

/-! ## Checkpoint round-trip lemmas -/

theorem dictAssign_fresh (m : NodeTable) (k v : String)
    (h : ∀ q ∈ m, q.1 ≠ k) : dictAssign m k v = m ++ [(k, v)] := by
  have : m.any (fun p => p.1 = k) = false := by
    simp only [List.any_eq_false, decide_eq_true_eq]
    exact h
  simp [dictAssign, this]

theorem load_nodes_fold (n : NodeTable) : ∀ (acc : NodeTable),
    (n.map Prod.fst).Nodup → (∀ p ∈ n, ∀ q ∈ acc, q.1 ≠ p.1) →
    List.foldlM
      (fun acc row =>
        match dictRowGet ["id:ID", "label", ":LABEL"] row "id:ID",
              dictRowGet ["id:ID", "label", ":LABEL"] row "label" with
        | some i, some l => some (dictAssign acc i l)
        | _, _ => none)
      acc (n.map (fun p => [p.1, p.2, "Entity"])) = some (acc ++ n) := by
  induction n with
  | nil => intro acc _ _; simp
  | cons p rest ih =>
    intro acc hnd hdis
    obtain ⟨i, l⟩ := p
    have h1 : dictRowGet ["id:ID", "label", ":LABEL"] [i, l, "Entity"] "id:ID"
        = some i := by simp [dictRowGet]
    have h2 : dictRowGet ["id:ID", "label", ":LABEL"] [i, l, "Entity"] "label"
        = some l := by simp [dictRowGet]
    have hfresh : dictAssign acc i l = acc ++ [(i, l)] :=
      dictAssign_fresh acc i l (fun q hq => hdis (i, l) (List.mem_cons_self _ _) q hq)
    simp only [List.map_cons, List.foldlM_cons, h1, h2, hfresh,
      Option.bind_eq_bind, Option.some_bind]
    rw [ih (acc ++ [(i, l)])]
    · simp
    · exact (List.nodup_cons.mp (by simpa using hnd)).2
    · intro p hp q hq
      rcases List.mem_append.mp hq with hq | hq
      · exact hdis p (List.mem_cons_of_mem _ hp) q hq
      · have : q = (i, l) := by simpa using hq
        subst this
        have : i ∉ rest.map Prod.fst := (List.nodup_cons.mp (by simpa using hnd)).1
        intro hcon
        exact this (by simpa [← hcon] using List.mem_map_of_mem Prod.fst hp)

theorem load_rels_fold (rs : List Rel) : ∀ (acc : List Rel),
    List.foldlM
      (fun acc row =>
        match dictRowGet [":START_ID", ":END_ID", "type", ":TYPE"] row ":START_ID",
              dictRowGet [":START_ID", ":END_ID", "type", ":TYPE"] row ":END_ID",
              dictRowGet [":START_ID", ":END_ID", "type", ":TYPE"] row "type" with
        | some c, some e, some t => some (acc ++ [Rel.mk c e t])
        | _, _, _ => none)
      acc (rs.map (fun r => [r.cause, r.effect, r.rtype, "CAUSES"])) = some (acc ++ rs) := by
  induction rs with
  | nil => intro acc; simp
  | cons r rest ih =>
    intro acc
    obtain ⟨c, e, t⟩ := r
    have h1 : dictRowGet [":START_ID", ":END_ID", "type", ":TYPE"]
        [c, e, t, "CAUSES"] ":START_ID" = some c := by
      simp [dictRowGet]
    have h2 : dictRowGet [":START_ID", ":END_ID", "type", ":TYPE"]
        [c, e, t, "CAUSES"] ":END_ID" = some e := by
      simp [dictRowGet]
    have h3 : dictRowGet [":START_ID", ":END_ID", "type", ":TYPE"]
        [c, e, t, "CAUSES"] "type" = some t := by
      simp [dictRowGet]
    simp only [List.map_cons, List.foldlM_cons, h1, h2, h3,
      Option.bind_eq_bind, Option.some_bind]
    rw [ih (acc ++ [Rel.mk c e t])]
    simp

/-- C1: writing a checkpoint with `write_checkpoint_csv` and reading it
back with `load_checkpoint` returns exactly the original node table
(its keys are distinct, being a Python dict) and exactly the original
relationship list, in order. -/
theorem c1_checkpoint_roundtrip (nodes : NodeTable) (rels : List Rel)
    (hnd : (nodes.map Prod.fst).Nodup) :
    load_checkpoint_nodes (write_checkpoint_nodes nodes) = some nodes ∧
    load_checkpoint_rels (write_checkpoint_rels rels) = some rels := by
  constructor
  · have := load_nodes_fold nodes [] hnd (by intro p _ q hq; simp at hq)
    simpa [load_checkpoint_nodes, write_checkpoint_nodes] using this
  · have := load_rels_fold rels []
    simpa [load_checkpoint_rels, write_checkpoint_rels] using this

/-- Witness for C1 at a concrete two-node, one-edge state. -/
theorem c1_checkpoint_roundtrip_witness :
    (([("Q1", "French Revolution"), ("Q2", "Storming of the Bastille")] :
        NodeTable).map Prod.fst).Nodup ∧
    (load_checkpoint_nodes (write_checkpoint_nodes
        [("Q1", "French Revolution"), ("Q2", "Storming of the Bastille")]) =
      some [("Q1", "French Revolution"), ("Q2", "Storming of the Bastille")] ∧
     load_checkpoint_rels (write_checkpoint_rels [Rel.mk "Q1" "Q2" "has cause"]) =
      some [Rel.mk "Q1" "Q2" "has cause"]) :=
  ⟨by decide, c1_checkpoint_roundtrip _ _ (by decide)⟩

/-! ## Pagination-loop theorems -/

/-- C3: a fetch at offset `N` that successfully decodes to an empty
record set ends the pagination loop in its done state, writes the final
output from the state accumulated so far, writes no further checkpoint,
and issues no fetch beyond offset `N` (`next_offset` never advances
past `N`). -/
theorem c3_termination_on_empty (cfg : MainCfg) (env : Nat → FetchOut)
    (fuel : Nat) (nodes : NodeTable) (rels : List Rel) (off : Nat)
    (h : env off = .got []) :
    main_loop cfg env (fuel + 1) nodes rels off =
      ⟨.done, [], some (nodes, rels), [off]⟩ := by
  simp [main_loop, h]

/-- Witness for C3: an environment empty at offset 0. -/
theorem c3_termination_on_empty_witness :
    (fun _ : Nat => FetchOut.got []) 0 = FetchOut.got [] ∧
    main_loop ⟨100, 10000, none⟩ (fun _ => FetchOut.got []) 1 [] [] 0 =
      ⟨.done, [], some ([], []), [0]⟩ :=
  ⟨rfl, c3_termination_on_empty ⟨100, 10000, none⟩ _ 0 [] [] 0 rfl⟩

/-- C6: a record that fails validation changes neither the node table
nor the relationship list; every record before and after it in the
batch is processed exactly as if the invalid record were not there, and
the batch is never aborted. -/
theorem c6_invalid_record_scoped (bad : RawItem)
    (hbad : validateSPARQLResult bad = none) :
    ∀ (pre post : List RawItem) (nodes : NodeTable) (rels : List Rel),
      process_data (pre ++ bad :: post) nodes rels =
        process_data (pre ++ post) nodes rels := by
  intro pre
  induction pre with
  | nil =>
    intro post nodes rels
    simp [process_data, hbad]
  | cons item rest ih =>
    intro post nodes rels
    cases hv : validateSPARQLResult item <;>
      simp [process_data, hv, ih]

/-- Witness for C6: a record missing `event2Label` between two valid
records is skipped, leaving the processing of the rest intact. -/
theorem c6_invalid_record_scoped_witness :
    validateSPARQLResult
      ⟨some ⟨some "uri", some "http://www.wikidata.org/entity/Q1", none, none⟩,
       some ⟨some "literal", some "French Revolution", none, none⟩,
       some ⟨some "uri", some "http://www.wikidata.org/entity/Q2", none, none⟩,
       none,
       some ⟨some "literal", some "has cause", none, none⟩⟩ = none ∧
    process_data
      [⟨some ⟨some "uri", some "http://www.wikidata.org/entity/Q1", none, none⟩,
        some ⟨some "literal", some "French Revolution", none, none⟩,
        some ⟨some "uri", some "http://www.wikidata.org/entity/Q2", none, none⟩,
        none,
        some ⟨some "literal", some "has cause", none, none⟩⟩,
       ⟨some ⟨some "uri", some "http://www.wikidata.org/entity/Q3", none, none⟩,
        some ⟨some "literal", some "Estates General", none, none⟩,
        some ⟨some "uri", some "http://www.wikidata.org/entity/Q4", none, none⟩,
        some ⟨some "literal", some "Tennis Court Oath", none, none⟩,
        some ⟨some "literal", some "has cause", none, none⟩⟩] [] [] =
      process_data
        [⟨some ⟨some "uri", some "http://www.wikidata.org/entity/Q3", none, none⟩,
          some ⟨some "literal", some "Estates General", none, none⟩,
          some ⟨some "uri", some "http://www.wikidata.org/entity/Q4", none, none⟩,
          some ⟨some "literal", some "Tennis Court Oath", none, none⟩,
          some ⟨some "literal", some "has cause", none, none⟩⟩] [] [] :=
  ⟨by decide, c6_invalid_record_scoped _ (by decide) [] _ [] []⟩

/-! ## Node-upsert theorems -/

theorem dictGet_none_iff_any_false {α : Type} (m : List (String × α)) (k : String) :
    dictGet m k = none ↔ m.any (fun p => p.1 = k) = false := by
  simp [dictGet, List.find?_eq_none, List.any_eq_false]

theorem insertIfAbsent_mem_self {α : Type} (m : List (String × α)) (k : String) (v : α) :
    (insertIfAbsent m k v).any (fun p => p.1 = k) = true := by
  unfold insertIfAbsent
  split
  · assumption
  · simp

theorem insertIfAbsent_of_any {α : Type} (m : List (String × α)) (k : String) (v : α)
    (h : m.any (fun p => p.1 = k) = true) : insertIfAbsent m k v = m := by
  simp [insertIfAbsent, h]

theorem dictGet_insertIfAbsent_preserve {α : Type} (m : List (String × α))
    (k k' : String) (v w : α) (h : dictGet m k = some v) :
    dictGet (insertIfAbsent m k' w) k = some v := by
  unfold insertIfAbsent
  split
  · exact h
  · unfold dictGet at h ⊢
    rw [List.find?_append]
    cases hf : m.find? (fun p => p.1 = k) with
    | none => simp [hf] at h
    | some p => simp [hf] at h ⊢; exact h

/-- C7: node insertion is first-wins and idempotent.  Re-inserting an
id that is already present leaves the table unchanged; inserting the
same id twice with different labels keeps the first label; and in both
pipelines a whole batch of processing never changes the stored value of
an id already in the table — in the generic pipeline that value is the
full node record, property values included. -/
theorem c7_first_label_wins {α : Type} (m : List (String × α)) (k : String) (a b : α) :
    (dictGet m k ≠ none → insertIfAbsent m k b = m) ∧
    insertIfAbsent (insertIfAbsent m k a) k b = insertIfAbsent m k a ∧
    (dictGet m k = none →
      dictGet (insertIfAbsent (insertIfAbsent m k a) k b) k = some a) ∧
    (∀ (batch : List RawItem) (nodes : NodeTable) (rels : List Rel) (v : String),
      dictGet nodes k = some v → dictGet (process_data batch nodes rels).1 k = some v) ∧
    (∀ (cfg : EntityConfig) (items : List EntityItem)
       (nodes : List (String × EntityNode)) (nd : EntityNode),
      dictGet nodes k = some nd →
      dictGet (process_entity_data_go cfg items nodes) k = some nd) := by
  refine ⟨?_, ?_, ?_, ?_, ?_⟩
  · intro h
    cases hany : m.any (fun p => p.1 = k) with
    | false => exact absurd ((dictGet_none_iff_any_false m k).mpr hany) h
    | true => exact insertIfAbsent_of_any m k b hany
  · exact insertIfAbsent_of_any _ _ b (insertIfAbsent_mem_self m k a)
  · intro h
    have hfalse := (dictGet_none_iff_any_false m k).mp h
    have h1 : insertIfAbsent m k a = m ++ [(k, a)] := by
      simp [insertIfAbsent, hfalse]
    have h2 : dictGet (m ++ [(k, a)]) k = some a := by
      unfold dictGet at h ⊢
      rw [List.find?_append]
      cases hf : m.find? (fun p => p.1 = k) with
      | none => simp
      | some p => simp [hf] at h
    rw [insertIfAbsent_of_any _ _ b (insertIfAbsent_mem_self m k a), h1]
    exact h2
  · intro batch
    induction batch with
    | nil => intro nodes rels v h; simpa [process_data] using h
    | cons item rest ih =>
      intro nodes rels v h
      cases hv : validateSPARQLResult item with
      | none => simpa [process_data, hv] using ih nodes rels v h
      | some r =>
        simp only [process_data, hv]
        exact ih _ _ v
          (dictGet_insertIfAbsent_preserve _ _ _ _ _
            (dictGet_insertIfAbsent_preserve _ _ _ _ _ h))
  · intro cfg items
    induction items with
    | nil => intro nodes nd h; simpa [process_entity_data_go] using h
    | cons item rest ih =>
      intro nodes nd h
      cases h1 : (dictGet item "entity").bind parseSPARQLValue with
      | none => simpa [process_entity_data_go, h1] using ih nodes nd h
      | some ev =>
        cases h2 : (dictGet item "entityLabel").bind parseSPARQLValue with
        | none => simpa [process_entity_data_go, h1, h2] using ih nodes nd h
        | some lv =>
          simp only [process_entity_data_go, h1, h2]
          exact ih _ nd (dictGet_insertIfAbsent_preserve _ _ _ _ _ h)

/-- Witness for C7: concrete duplicate inserts and batch processing. -/
theorem c7_first_label_wins_witness :
    (dictGet [("Q1", "A")] "Q1" ≠ none ∧
      insertIfAbsent [("Q1", "A")] "Q1" "B" = [("Q1", "A")]) ∧
    (dictGet ([] : NodeTable) "Q1" = none ∧
      dictGet (insertIfAbsent (insertIfAbsent ([] : NodeTable) "Q1" "A") "Q1" "B")
        "Q1" = some "A") ∧
    (dictGet [("Q1", "A")] "Q1" = some "A" ∧
      dictGet (process_data [] [("Q1", "A")] []).1 "Q1" = some "A") ∧
    (dictGet [("Q1", EntityNode.mk "Q1" "A" [] "Human")] "Q1" =
        some (EntityNode.mk "Q1" "A" [] "Human") ∧
      dictGet (process_entity_data_go ⟨"Human", []⟩ []
          [("Q1", EntityNode.mk "Q1" "A" [] "Human")]) "Q1" =
        some (EntityNode.mk "Q1" "A" [] "Human")) :=
  ⟨⟨by decide, (c7_first_label_wins [("Q1", "A")] "Q1" "A" "B").1 (by decide)⟩,
   ⟨by decide, (c7_first_label_wins ([] : NodeTable) "Q1" "A" "B").2.2.1 (by decide)⟩,
   ⟨by decide, (c7_first_label_wins [("Q1", "A")] "Q1" "A" "B").2.2.2.1
      [] [("Q1", "A")] [] "A" (by decide)⟩,
   ⟨by decide, (c7_first_label_wins ([] : NodeTable) "Q1" "A" "B").2.2.2.2
      ⟨"Human", []⟩ [] [("Q1", EntityNode.mk "Q1" "A" [] "Human")]
      (EntityNode.mk "Q1" "A" [] "Human") (by decide)⟩⟩

/-! ## Retry-exhaustion theorems -/

theorem fetch_batch_go_all_fail (oracle : Nat → AttemptOutcome) :
    ∀ (rem attempt : Nat), 1 ≤ rem →
      (∀ i, attempt ≤ i → i < attempt + rem → oracle i = .fail) →
      fetch_batch_go oracle attempt rem = (.raised, rem) := by
  intro rem
  induction rem with
  | zero => intro attempt h; omega
  | succ r ih =>
    intro attempt _ hfail
    have h0 : oracle attempt = .fail := hfail attempt (Nat.le_refl _) (by omega)
    by_cases hr : r = 0
    · subst hr; simp [fetch_batch_go, h0]
    · have hrec := ih (attempt + 1) (by omega)
        (fun i h1 h2 => hfail i (by omega) (by omega))
      simp only [fetch_batch_go, h0]
      rw [if_neg hr, hrec]

theorem main_loop_fatal_merge (cfg : MainCfg) (env : Nat → FetchOut)
    (bs : List (List RawItem)) :
    ∀ (nodes : NodeTable) (rels : List Rel) (off fuel : Nat),
      bs.length < fuel →
      (∀ i, i < bs.length →
        env (off + i * cfg.batchSize) = .got (bs.getD i []) ∧ bs.getD i [] ≠ []) →
      env (off + bs.length * cfg.batchSize) = .raised →
      cfg.maxResults = none →
      (main_loop cfg env fuel nodes rels off).result = .fatalStopped ∧
      (main_loop cfg env fuel nodes rels off).checkpoints.getLast? =
        some ((merge_batches bs nodes rels).1, (merge_batches bs nodes rels).2,
              (merge_batches bs nodes rels).2.length) := by
  induction bs with
  | nil =>
    intro nodes rels off fuel hfuel _ hraised _
    obtain ⟨f, rfl⟩ : ∃ f, fuel = f + 1 := ⟨fuel - 1, by omega⟩
    have henv : env off = .raised := by simpa using hraised
    simp [main_loop, henv, merge_batches]
  | cons b rest ih =>
    intro nodes rels off fuel hfuel hb hraised hmax
    obtain ⟨f, rfl⟩ : ∃ f, fuel = f + 1 := ⟨fuel - 1, by omega⟩
    have h0 := hb 0 (by simp)
    have henv : env off = .got b := by simpa using h0.1
    have hbne : b ≠ [] := by simpa using h0.2
    obtain ⟨item, br, rfl⟩ : ∃ x xs, b = x :: xs := by
      cases b with
      | nil => exact absurd rfl hbne
      | cons x xs => exact ⟨x, xs, rfl⟩
    simp only [List.length_cons] at hfuel hraised
    have ihr := ih (process_data (item :: br) nodes rels).1
      (process_data (item :: br) nodes rels).2 (off + cfg.batchSize) f
      (by omega)
      (by
        intro i hi
        have h := hb (i + 1) (by simp only [List.length_cons]; omega)
        have harith : off + (i + 1) * cfg.batchSize =
            off + cfg.batchSize + i * cfg.batchSize := by ring
        rw [harith] at h
        simpa using h)
      (by
        have harith : off + (rest.length + 1) * cfg.batchSize =
            off + cfg.batchSize + rest.length * cfg.batchSize := by ring
        rw [harith] at hraised
        exact hraised)
      hmax
    have hne : (main_loop cfg env f (process_data (item :: br) nodes rels).1
        (process_data (item :: br) nodes rels).2
        (off + cfg.batchSize)).checkpoints ≠ [] := by
      intro hc
      have := ihr.2
      rw [hc] at this
      simp at this
    constructor
    · simpa [main_loop, henv, hmax] using ihr.1
    · have hcps : (main_loop cfg env (f + 1) nodes rels off).checkpoints =
          (if (process_data (item :: br) nodes rels).2.length % cfg.checkpointFreq = 0 ∧
              0 < (process_data (item :: br) nodes rels).2.length then
            [((process_data (item :: br) nodes rels).1,
              (process_data (item :: br) nodes rels).2,
              (process_data (item :: br) nodes rels).2.length)]
           else []) ++
          (main_loop cfg env f (process_data (item :: br) nodes rels).1
            (process_data (item :: br) nodes rels).2
            (off + cfg.batchSize)).checkpoints := by
        simp [main_loop, henv, hmax]
      rw [show merge_batches ((item :: br) :: rest) nodes rels =
          merge_batches rest (process_data (item :: br) nodes rels).1
            (process_data (item :: br) nodes rels).2 from rfl,
        hcps, List.getLast?_append_of_ne_nil _ hne]
      exact ihr.2

/-- C2: when every attempt of `fetch_batch` fails with a non-rate-limit
error, exactly `max_retries` attempts are made and the exception is
re-raised; when that reaches the pagination loop — after any sequence
of successfully merged non-empty batches — the run stops fatally and
the last checkpoint written holds exactly the node table and
relationship list obtained by merging all batches fetched before the
failing call.  (In `fetch_batch` every error is retried the same way;
there is no rate-limit carve-out at this level.) -/
theorem c2_retry_exhaustion_checkpoint
    (oracle : Nat → AttemptOutcome) (m : Nat)
    (cfg : MainCfg) (env : Nat → FetchOut) (bs : List (List RawItem))
    (nodes : NodeTable) (rels : List Rel) (off fuel : Nat)
    (hm : 1 ≤ m) (hfail : ∀ i, i < m → oracle i = .fail)
    (hfuel : bs.length < fuel)
    (hb : ∀ i, i < bs.length →
      env (off + i * cfg.batchSize) = .got (bs.getD i []) ∧ bs.getD i [] ≠ [])
    (hraised : env (off + bs.length * cfg.batchSize) = .raised)
    (hmax : cfg.maxResults = none) :
    fetch_batch oracle m = (.raised, m) ∧
    (main_loop cfg env fuel nodes rels off).result = .fatalStopped ∧
    (main_loop cfg env fuel nodes rels off).checkpoints.getLast? =
      some ((merge_batches bs nodes rels).1, (merge_batches bs nodes rels).2,
            (merge_batches bs nodes rels).2.length) :=
  ⟨fetch_batch_go_all_fail oracle m 0 hm (fun i _ h2 => hfail i (by omega)),
   (main_loop_fatal_merge cfg env bs nodes rels off fuel hfuel hb hraised hmax).1,
   (main_loop_fatal_merge cfg env bs nodes rels off fuel hfuel hb hraised hmax).2⟩

/-- Witness for C2: three failing attempts after one good batch. -/
theorem c2_retry_exhaustion_checkpoint_witness :
    (1 ≤ 3 ∧ (∀ i : Nat, i < 3 → (fun _ => AttemptOutcome.fail) i = AttemptOutcome.fail) ∧
     ([[RawItem.mk none none none none none]] : List (List RawItem)).length < 2 ∧
     (∀ i, i < ([[RawItem.mk none none none none none]] : List (List RawItem)).length →
       (fun o => if o = 0 then FetchOut.got [RawItem.mk none none none none none]
                 else FetchOut.raised) (0 + i * (100 : Nat)) =
         .got (([[RawItem.mk none none none none none]] :
            List (List RawItem)).getD i []) ∧
       ([[RawItem.mk none none none none none]] :
          List (List RawItem)).getD i [] ≠ []) ∧
     (fun o => if o = 0 then FetchOut.got [RawItem.mk none none none none none]
               else FetchOut.raised)
        (0 + ([[RawItem.mk none none none none none]] :
          List (List RawItem)).length * (100 : Nat)) = .raised) ∧
    (fetch_batch (fun _ => AttemptOutcome.fail) 3 = (.raised, 3) ∧
     (main_loop ⟨100, 10000, none⟩
        (fun o => if o = 0 then FetchOut.got [RawItem.mk none none none none none]
                  else FetchOut.raised) 2 [] [] 0).result = .fatalStopped ∧
     (main_loop ⟨100, 10000, none⟩
        (fun o => if o = 0 then FetchOut.got [RawItem.mk none none none none none]
                  else FetchOut.raised) 2 [] [] 0).checkpoints.getLast? =
       some ((merge_batches [[RawItem.mk none none none none none]] [] []).1,
             (merge_batches [[RawItem.mk none none none none none]] [] []).2,
             (merge_batches [[RawItem.mk none none none none none]] [] []).2.length)) :=
  ⟨⟨by decide, fun i _ => rfl, by decide, by decide, by decide⟩,
   c2_retry_exhaustion_checkpoint (fun _ => AttemptOutcome.fail) 3
     ⟨100, 10000, none⟩ _ [[RawItem.mk none none none none none]] [] [] 0 2
     (by decide) (fun i _ => rfl) (by decide) (by decide) (by decide) rfl⟩

/-! ## `get_id_from_uri` theorems -/

theorem splitSlash_ne_nil (l : List Char) : splitSlash l ≠ [] := by
  cases l with
  | nil => simp [splitSlash]
  | cons c rest =>
    simp only [splitSlash]
    split
    · simp
    · split <;> simp

theorem splitSlash_no_slash (s : List Char) (h : '/' ∉ s) : splitSlash s = [s] := by
  induction s with
  | nil => rfl
  | cons c cs ih =>
    have hc : c ≠ '/' := by
      intro hh
      exact h (hh ▸ List.mem_cons_self _ _)
    have hcs : '/' ∉ cs := fun hm => h (List.mem_cons_of_mem _ hm)
    simp only [splitSlash, if_neg hc, ih hcs]

theorem splitSlash_cons_slash (rest : List Char) :
    splitSlash ('/' :: rest) = [] :: splitSlash rest := by
  simp [splitSlash]

theorem splitSlash_cons_other (c : Char) (rest : List Char)
    (hc : c ≠ '/') (t : List Char) (ts : List (List Char))
    (hsp : splitSlash rest = t :: ts) :
    splitSlash (c :: rest) = (c :: t) :: ts := by
  simp [splitSlash, hc, hsp]

theorem splitSlash_slash_length (p s : List Char) :
    2 ≤ (splitSlash (p ++ '/' :: s)).length := by
  induction p with
  | nil =>
    have h1 : 0 < (splitSlash s).length :=
      List.length_pos.mpr (splitSlash_ne_nil s)
    rw [List.nil_append, splitSlash_cons_slash, List.length_cons]
    omega
  | cons c p' ih =>
    by_cases hc : c = '/'
    · subst hc
      rw [List.cons_append, splitSlash_cons_slash, List.length_cons]
      omega
    · cases hsp : splitSlash (p' ++ '/' :: s) with
      | nil => exact absurd hsp (splitSlash_ne_nil _)
      | cons t ts =>
        rw [hsp, List.length_cons] at ih
        rw [List.cons_append, splitSlash_cons_other c _ hc t ts hsp,
          List.length_cons]
        omega

theorem splitSlash_getLast_append (p s : List Char) :
    (splitSlash (p ++ '/' :: s)).getLast? = (splitSlash s).getLast? := by
  induction p with
  | nil =>
    rw [List.nil_append, splitSlash_cons_slash]
    cases hsp : splitSlash s with
    | nil => exact absurd hsp (splitSlash_ne_nil _)
    | cons t ts => exact List.getLast?_cons_cons
  | cons c p' ih =>
    by_cases hc : c = '/'
    · subst hc
      rw [List.cons_append, splitSlash_cons_slash]
      cases hsp : splitSlash (p' ++ '/' :: s) with
      | nil => exact absurd hsp (splitSlash_ne_nil _)
      | cons t ts =>
        rw [hsp] at ih
        rw [List.getLast?_cons_cons]
        exact ih
    · cases hsp : splitSlash (p' ++ '/' :: s) with
      | nil => exact absurd hsp (splitSlash_ne_nil _)
      | cons t ts =>
        have hlen := splitSlash_slash_length p' s
        rw [hsp] at ih hlen
        rw [List.cons_append, splitSlash_cons_other c _ hc t ts hsp]
        cases ts with
        | nil => simp at hlen
        | cons u us =>
          rw [List.getLast?_cons_cons]
          rw [List.getLast?_cons_cons] at ih
          exact ih

/-- Counterexample to C8: a URI ending in a slash (as produced by, for
instance, a trailing-slash entity URL) yields the empty string, so the
result of `get_id_from_uri` is not always non-empty. -/
theorem c8_counterexample :
    get_id_from_uri "http://www.wikidata.org/entity/" = "" := by decide

/-- C8 amended: `get_id_from_uri` returns exactly the trailing
`/`-delimited token of the URI (the whole URI when it has no slash);
in particular the result is non-empty iff that trailing token is, and
it is empty when the URI ends in a slash. -/
theorem c8_trailing_segment (p s : List Char) (h : '/' ∉ s) :
    get_id_from_uri ⟨p ++ '/' :: s⟩ = ⟨s⟩ ∧ get_id_from_uri ⟨s⟩ = ⟨s⟩ := by
  constructor
  · unfold get_id_from_uri
    rw [show (String.mk (p ++ '/' :: s)).data = p ++ '/' :: s from rfl,
      List.getLastD_eq_getLast?, splitSlash_getLast_append p s,
      splitSlash_no_slash s h]
    rfl
  · unfold get_id_from_uri
    rw [show (String.mk s).data = s from rfl, splitSlash_no_slash s h]
    rfl

/-- Witness for C8 at the Wikidata entity URI for Q5. -/
theorem c8_trailing_segment_witness :
    ('/' ∉ ['Q', '5']) ∧
    (get_id_from_uri ⟨['h', 't', 'x'] ++ '/' :: ['Q', '5']⟩ = ⟨['Q', '5']⟩ ∧
     get_id_from_uri ⟨['Q', '5']⟩ = ⟨['Q', '5']⟩) :=
  ⟨by decide, c8_trailing_segment ['h', 't', 'x'] ['Q', '5'] (by decide)⟩

/-! ## CSV-cleaning theorems -/

theorem clean_nodes_eq_filter (rows : List (String × String)) :
    clean_nodes rows = rows.filter (fun p => isValidQid p.1 && p.2 ≠ p.1) := by
  induction rows with
  | nil => rfl
  | cons p rest ih =>
    obtain ⟨i, l⟩ := p
    by_cases hq : isValidQid i <;> by_cases hl : l = i <;>
      simp [clean_nodes, hq, hl, ih, List.filter_cons]

/-- Counterexample to C9: a node whose id is not of Q-ID shape is
removed by `clean_nodes` even though its label differs from its
identifier, so the cleaning step does not remove exactly the nodes
whose label equals their identifier. -/
theorem c9_counterexample :
    clean_nodes [("abc", "A label")] = [] ∧ "A label" ≠ "abc" := by decide

/-- C9 amended: `clean_nodes` keeps exactly the rows whose id has Q-ID
shape (a `Q` followed by at least one digit) and whose label differs
from the id; `clean_relationships` keeps exactly the edges whose two
endpoints are both among the kept node ids — in particular every edge
both of whose endpoints survive node cleaning appears in the cleaned
relationship output. -/
theorem c9_cleaning_amended (nrows : List (String × String))
    (rrows : List (String × String × String)) :
    clean_nodes nrows = nrows.filter (fun p => isValidQid p.1 && p.2 ≠ p.1) ∧
    ∀ e, e ∈ clean_relationships ((clean_nodes nrows).map Prod.fst) rrows ↔
      (e ∈ rrows ∧ e.1 ∈ (clean_nodes nrows).map Prod.fst ∧
        e.2.1 ∈ (clean_nodes nrows).map Prod.fst) := by
  refine ⟨clean_nodes_eq_filter nrows, ?_⟩
  intro e
  simp [clean_relationships, List.mem_filter, and_assoc]

/-! ## Response-repair theorems -/

theorem stripCtrlAux_mem (l : List Char) :
    ∀ (prev : Bool), ∀ c ∈ stripCtrlAux prev l, c = ' ' ∨ isCtrlChar c = false := by
  induction l with
  | nil => intro prev c hc; simp [stripCtrlAux] at hc
  | cons d rest ih =>
    intro prev c hc
    by_cases hd : isCtrlChar d
    · cases prev with
      | true =>
        simp only [stripCtrlAux, hd, if_true] at hc
        exact ih true c hc
      | false =>
        simp only [stripCtrlAux, hd, if_true] at hc
        rcases List.mem_cons.mp hc with h | h
        · exact Or.inl h
        · exact ih true c h
    · simp only [stripCtrlAux, hd] at hc
      rcases List.mem_cons.mp hc with h | h
      · subst h; exact Or.inr (by simpa using hd)
      · exact ih false c h

theorem stripStrayBackslash_subset (l : List Char) :
    ∀ c ∈ stripStrayBackslash l, c ∈ l := by
  induction l with
  | nil => intro c hc; simp [stripStrayBackslash] at hc
  | cons d rest ih =>
    intro c hc
    by_cases hd : d = '\\'
    · subst hd
      by_cases he : isEscStart rest
      · simp only [stripStrayBackslash, he, if_pos rfl, if_true] at hc
        rcases List.mem_cons.mp hc with h | h
        · exact h ▸ List.mem_cons_self _ _
        · exact List.mem_cons_of_mem _ (ih c h)
      · simp only [stripStrayBackslash, he, if_pos rfl, if_false] at hc
        exact List.mem_cons_of_mem _ (ih c hc)
    · simp only [stripStrayBackslash, hd, if_false] at hc
      rcases List.mem_cons.mp hc with h | h
      · exact h ▸ List.mem_cons_self _ _
      · exact List.mem_cons_of_mem _ (ih c h)

theorem collapseNewlines_of_no_newline : ∀ (l : List Char),
    (∀ c ∈ l, c ≠ '\n' ∧ c ≠ '\r') → collapseNewlines l = l := by
  intro l
  induction l with
  | nil => intro _; rfl
  | cons c rest ih =>
    intro h
    have hc := h c (List.mem_cons_self _ _)
    have ih' := ih (fun d hd => h d (List.mem_cons_of_mem _ hd))
    simp only [collapseNewlines, replaceChar, List.map_cons] at ih' ⊢
    rw [if_neg hc.1, if_neg hc.2, ih']

/-- Counterexample to C5: on a body containing a stray backslash and no
control character, the first repair attempt the code makes parses the
backslash-stripped text leniently, whereas the claimed first pass
parses the text with only control characters stripped, strictly. -/
theorem c5_counterexample :
    repair_attempts ['a', '\\', 'x'] ≠ spec_repair_attempts ['a', '\\', 'x'] ∧
    (repair_attempts ['a', '\\', 'x']).head? = some (['a', 'x'], false) ∧
    (spec_repair_attempts ['a', '\\', 'x']).head? = some (['a', '\\', 'x'], true) := by
  decide

/-- C5 amended: after a strict-decode failure there are exactly two
repair parse attempts, both lenient (`strict=False`); the first already
applies both transformations — control-character runs collapsed to a
space and stray backslashes stripped; the second would additionally
collapse newlines, but that is a no-op because every newline was
already replaced by a space in the first pass, so both attempts parse
the same repaired text. -/
theorem c5_repair_passes_amended (raw : List Char) :
    repair_attempts raw =
      [(stripStrayBackslash (stripCtrlRuns raw), false),
       (stripStrayBackslash (stripCtrlRuns raw), false)] := by
  have hno : ∀ c ∈ stripStrayBackslash (stripCtrlRuns raw), c ≠ '\n' ∧ c ≠ '\r' := by
    intro c hc
    have h1 := stripStrayBackslash_subset _ c hc
    have h2 := stripCtrlAux_mem raw false c h1
    rcases h2 with h | h
    · subst h; exact ⟨by decide, by decide⟩
    · constructor
      · intro hn; subst hn; simp [isCtrlChar] at h
      · intro hn; subst hn; simp [isCtrlChar] at h
  show [(stripStrayBackslash (stripCtrlRuns raw), false),
        (collapseNewlines (stripStrayBackslash (stripCtrlRuns raw)), false)] =
      [(stripStrayBackslash (stripCtrlRuns raw), false),
       (stripStrayBackslash (stripCtrlRuns raw), false)]
  rw [collapseNewlines_of_no_newline _ hno]

/-! ## Rate-limit theorems -/

/-- Counterexample to C4: with `max_retries = 2`, a 429 failure on the
first attempt followed by a single ordinary failure makes the round
give up — the 429 retry consumed an attempt of the budget, so 429
retries are counted against `max_retries` (the round does sleep the
fixed 60 seconds for the 429). -/
theorem c4_counterexample :
    fetch_round (fun i => if i = 0 then EtlOutcome.rateLimited else EtlOutcome.failOther)
      0 0 2 = ⟨.gaveUp, 2, [60]⟩ ∧
    (fun i => if i = 0 then EtlOutcome.rateLimited else EtlOutcome.failOther) 0 =
      EtlOutcome.rateLimited ∧
    (fun i => if i = 0 then EtlOutcome.rateLimited else EtlOutcome.failOther) 1 =
      EtlOutcome.failOther := by
  decide

/-- C4 amended: a 429-failing attempt sleeps a fixed 60 seconds and the
same offset is retried, but the retry consumes an attempt of the inner
round's `max_retries` budget; a round exhausted entirely by 429s falls
through to the enclosing loop, which restarts the same offset with a
fresh budget — so under consecutive 429 failures the fetcher never
gives up and never returns: it retries indefinitely. -/
theorem c4_rate_limit_amended :
    (∀ (oracle : Nat → EtlOutcome) (call attempt rem : Nat),
      oracle call = .rateLimited →
      fetch_round oracle call attempt (rem + 1) =
        ⟨(fetch_round oracle (call + 1) (attempt + 1) rem).res,
         (fetch_round oracle (call + 1) (attempt + 1) rem).nextCall,
         60 :: (fetch_round oracle (call + 1) (attempt + 1) rem).sleeps⟩) ∧
    (∀ (oracle : Nat → EtlOutcome) (call attempt rem : Nat),
      (∀ i, oracle i = .rateLimited) →
      (fetch_round oracle call attempt rem).res = .fellThrough) ∧
    (∀ (oracle : Nat → EtlOutcome) (m fuel call : Nat) (acc : List EntityItem),
      (∀ i, oracle i = .rateLimited) →
      fetch_batch_data_loop oracle m fuel call acc = none) := by
  have hround : ∀ (oracle : Nat → EtlOutcome) (rem call attempt : Nat),
      (∀ i, oracle i = .rateLimited) →
      (fetch_round oracle call attempt rem).res = .fellThrough := by
    intro oracle rem
    induction rem with
    | zero => intro call attempt _; rfl
    | succ r ih =>
      intro call attempt hall
      simp only [fetch_round, hall call]
      exact ih (call + 1) (attempt + 1) hall
  refine ⟨?_, ?_, ?_⟩
  · intro oracle call attempt rem h
    simp [fetch_round, h]
  · intro oracle call attempt rem hall
    exact hround oracle rem call attempt hall
  · intro oracle m fuel
    induction fuel with
    | zero => intro call acc _; rfl
    | succ fl ih =>
      intro call acc hall
      have hres := hround oracle m call 0 hall
      simp only [fetch_batch_data_loop, hres]
      exact ih _ _ hall

/-- Witness for C4's amended theorem under an all-429 oracle. -/
theorem c4_rate_limit_amended_witness :
    (fetch_round (fun _ => EtlOutcome.rateLimited) 0 0 2 =
      ⟨(fetch_round (fun _ => EtlOutcome.rateLimited) 1 1 1).res,
       (fetch_round (fun _ => EtlOutcome.rateLimited) 1 1 1).nextCall,
       60 :: (fetch_round (fun _ => EtlOutcome.rateLimited) 1 1 1).sleeps⟩) ∧
    (fetch_round (fun _ => EtlOutcome.rateLimited) 0 0 3).res = .fellThrough ∧
    fetch_batch_data_loop (fun _ => EtlOutcome.rateLimited) 3 5 0 [] = none :=
  ⟨c4_rate_limit_amended.1 _ 0 0 1 rfl,
   c4_rate_limit_amended.2.1 _ 0 0 3 (fun _ => rfl),
   c4_rate_limit_amended.2.2 _ 3 5 0 [] (fun _ => rfl)⟩

/-! ## Optional-field theorems -/

theorem dictGet_filter_ne {α : Type} (item : List (String × α)) (f g : String)
    (hg : g ≠ f) :
    dictGet (item.filter (fun p => p.1 ≠ f)) g = dictGet item g := by
  induction item with
  | nil => rfl
  | cons p rest ih =>
    obtain ⟨k, v⟩ := p
    by_cases hk : k = f
    · subst hk
      have hkg : ¬(k = g) := fun hc => hg hc.symm
      simp [dictGet, List.filter_cons, hkg] at ih ⊢
      simpa [dictGet] using ih
    · by_cases hkg : k = g
      · subst hkg
        simp [dictGet, List.filter_cons, hk]
      · simp [dictGet, List.filter_cons, hk, hkg] at ih ⊢
        simpa [dictGet] using ih

theorem dictGet_filter_self {α : Type} (item : List (String × α)) (f : String) :
    dictGet (item.filter (fun p => p.1 ≠ f)) f = none := by
  have : (item.filter (fun p => p.1 ≠ f)).find? (fun p => p.1 = f) = none := by
    apply List.find?_eq_none.mpr
    intro p hp
    have := (List.mem_filter.mp hp).2
    simpa using this
  simp [dictGet, this]

/-- C10: an optional field present in a record with a malformed value
is treated exactly like an absent field — `get_optional_field` returns
`None` in both cases, and processing the record is identical to
processing the record with the field removed, so the record still
produces its node with that property recorded as absent. -/
theorem c10_malformed_optional_absent (item : EntityItem) (f : String)
    (rv : RawValue)
    (hget : dictGet item f = some rv)
    (htruthy : rv ≠ ⟨none, none, none, none⟩)
    (hbad : parseSPARQLValue rv = none)
    (hf1 : f ≠ "entity") (hf2 : f ≠ "entityLabel") :
    get_optional_field item f = none ∧
    get_optional_field (item.filter (fun p => p.1 ≠ f)) f = none ∧
    (∀ (cfg : EntityConfig) (rest : List EntityItem)
       (nodes : List (String × EntityNode)),
      process_entity_data_go cfg (item :: rest) nodes =
        process_entity_data_go cfg (item.filter (fun p => p.1 ≠ f) :: rest) nodes) := by
  have h1 : get_optional_field item f = none := by
    simp [get_optional_field, hget, htruthy, hbad]
  have h2 : get_optional_field (item.filter (fun p => p.1 ≠ f)) f = none := by
    unfold get_optional_field
    rw [dictGet_filter_self item f]
  have hopt : ∀ g, get_optional_field (item.filter (fun p => p.1 ≠ f)) g =
      get_optional_field item g := by
    intro g
    by_cases hgf : g = f
    · subst hgf; rw [h1, h2]
    · unfold get_optional_field
      rw [dictGet_filter_ne item f g hgf]
  refine ⟨h1, h2, ?_⟩
  intro cfg rest nodes
  have he : dictGet (item.filter (fun p => p.1 ≠ f)) "entity" = dictGet item "entity" :=
    dictGet_filter_ne item f "entity" (Ne.symm hf1)
  have hl : dictGet (item.filter (fun p => p.1 ≠ f)) "entityLabel" =
      dictGet item "entityLabel" :=
    dictGet_filter_ne item f "entityLabel" (Ne.symm hf2)
  simp only [process_entity_data_go, he, hl, hopt]

/-- Witness for C10: a `birth_date` value whose dict lacks the required
`value` key is treated as absent and the node is still produced. -/
theorem c10_malformed_optional_absent_witness :
    (dictGet [("entity", RawValue.mk (some "uri")
        (some "http://www.wikidata.org/entity/Q1") none none),
      ("entityLabel", RawValue.mk (some "literal") (some "Ada Lovelace") none none),
      ("birth_date", RawValue.mk (some "literal") none none none)] "birth_date" =
      some (RawValue.mk (some "literal") none none none)) ∧
    (get_optional_field [("entity", RawValue.mk (some "uri")
        (some "http://www.wikidata.org/entity/Q1") none none),
      ("entityLabel", RawValue.mk (some "literal") (some "Ada Lovelace") none none),
      ("birth_date", RawValue.mk (some "literal") none none none)] "birth_date" = none ∧
     process_entity_data_go ⟨"Human", [("birth_date", false)]⟩
        [[("entity", RawValue.mk (some "uri")
            (some "http://www.wikidata.org/entity/Q1") none none),
          ("entityLabel", RawValue.mk (some "literal") (some "Ada Lovelace") none none),
          ("birth_date", RawValue.mk (some "literal") none none none)]] [] =
      process_entity_data_go ⟨"Human", [("birth_date", false)]⟩
        [List.filter (fun p => p.1 ≠ "birth_date")
          [("entity", RawValue.mk (some "uri")
              (some "http://www.wikidata.org/entity/Q1") none none),
           ("entityLabel", RawValue.mk (some "literal") (some "Ada Lovelace") none none),
           ("birth_date", RawValue.mk (some "literal") none none none)]] []) :=
  by
  have h := c10_malformed_optional_absent
    [("entity", RawValue.mk (some "uri")
        (some "http://www.wikidata.org/entity/Q1") none none),
     ("entityLabel", RawValue.mk (some "literal") (some "Ada Lovelace") none none),
     ("birth_date", RawValue.mk (some "literal") none none none)]
    "birth_date" (RawValue.mk (some "literal") none none none)
    (by decide) (by decide) (by decide) (by decide) (by decide)
  exact ⟨by decide, h.1, h.2.2 ⟨"Human", [("birth_date", false)]⟩ [] []⟩

end InfluenceNet
